import Mathlib

/-
  Verification of the preview-deployment orchestration engine
  (review-apps repository) against its natural-language specification.

  The definitions below are a shallow embedding of the TypeScript source:
    - the deployment database schema   (src/db/schema, part_004)
    - edge-case handlers               (edge-case-handlers, part_005)
    - the webhook route                (webhooks/github/repository, part_017)
    - webhook security helpers         (src/lib/security/webhook-security.ts)
    - the deployment service           (src/lib/fly/deployment-service.ts)

  Timestamps are integers (milliseconds).  The database is a list of rows
  in insertion order; an UPDATE is a map over rows matching its WHERE
  clause; ORDER BY createdAt DESC LIMIT 1 is a fold picking a row of
  maximal createdAt.
-/

namespace ReviewApps

/-- Deployment status enum, from the deployment table schema (part_004). -/
inductive Status where
  | pending
  | building
  | deploying
  | ready
  | failed
  | destroying
  | destroyed
deriving DecidableEq, Repr

/-- The statuses treated as live by the code: the collision check in
generateUniqueFlyAppName and the in-flight check both use
ready/pending/building/deploying. -/
def Status.isLive : Status → Bool
  | .pending => true
  | .building => true
  | .deploying => true
  | .ready => true
  | _ => false

/-- A row of the deployment table (part_004).  Fields not relevant to any
claim (flyAppId, previewUrl, buildLogs, metadata) are omitted. -/
structure Row where
  id : Nat
  projectId : Nat
  prNumber : Nat
  prTitle : String
  branch : String
  commitSha : String
  flyAppName : Option (List Char)
  status : Status
  errorMessage : Option String
  createdAt : Int
  updatedAt : Int
  startedAt : Option Int
  completedAt : Option Int
  destroyedAt : Option Int
deriving DecidableEq, Repr

/-- A project row (part_004), restricted to the fields the webhook route
reads. -/
structure Project where
  id : Nat
  repoFullName : String
  repoName : List Char
  flyAppNamePfx : Option (List Char)
  isActive : Bool
deriving DecidableEq, Repr

/-- WHERE projectId = pid AND prNumber = pr. -/
def rowMatches (pid pr : Nat) (r : Row) : Bool :=
  r.projectId == pid && r.prNumber == pr

/-- Fold step realising ORDER BY createdAt DESC LIMIT 1: keep the row with
the larger createdAt (the earlier row wins ties). -/
def pickLater (acc : Option Row) (r : Row) : Option Row :=
  match acc with
  | none => some r
  | some a => if a.createdAt < r.createdAt then some r else some a

/-- The most recent deployment row for a (project, PR) pair:
SELECT ... WHERE projectId AND prNumber ORDER BY createdAt DESC LIMIT 1. -/
def latestFor (db : List Row) (pid pr : Nat) : Option Row :=
  (db.filter (rowMatches pid pr)).foldl pickLater none

/-- The action argument of handleConcurrentPREvents (part_005). -/
inductive PRAction where
  | openPR
  | reopenPR
  | closePR
deriving DecidableEq, Repr

/-- Result shape of handleConcurrentPREvents. -/
structure ConcurrentDecision where
  shouldProcess : Bool
  existingDeployment : Option Row
deriving DecidableEq, Repr

/-- handleConcurrentPREvents (part_005, lines 95-141).  The cooldown
window is 5 minutes = 300000 ms. -/
def handleConcurrentPREvents (db : List Row) (projectId prNumber : Nat)
    (action : PRAction) (now : Int) : ConcurrentDecision :=
  let latest := latestFor db projectId prNumber
  match action with
  | .openPR | .reopenPR =>
    match latest with
    | some l =>
      if l.status = .pending ∨ l.status = .building ∨ l.status = .deploying then
        ⟨false, some l⟩
      else if l.status = .ready ∧ l.createdAt > now - 300000 then
        ⟨false, some l⟩
      else
        ⟨true, some l⟩
    | none => ⟨true, none⟩
  | .closePR =>
    match latest with
    | some l =>
      if l.status = .destroying ∨ l.status = .destroyed then
        ⟨false, none⟩
      else
        ⟨true, some l⟩
    | none => ⟨false, none⟩

/-- ASCII lowercasing, the effect of String.prototype.toLowerCase on the
characters that matter here (non-ASCII letters are replaced by a dash by
the following step either way). -/
def asciiLower (c : Char) : Char :=
  match c with
  | 'A' => 'a' | 'B' => 'b' | 'C' => 'c' | 'D' => 'd' | 'E' => 'e'
  | 'F' => 'f' | 'G' => 'g' | 'H' => 'h' | 'I' => 'i' | 'J' => 'j'
  | 'K' => 'k' | 'L' => 'l' | 'M' => 'm' | 'N' => 'n' | 'O' => 'o'
  | 'P' => 'p' | 'Q' => 'q' | 'R' => 'r' | 'S' => 's' | 'T' => 't'
  | 'U' => 'u' | 'V' => 'v' | 'W' => 'w' | 'X' => 'x' | 'Y' => 'y'
  | 'Z' => 'z'
  | _ => c

/-- One character of the replace(non [a-z0-9-] to dash) step. -/
def dashify (c : Char) : Char :=
  if ('a' ≤ c ∧ c ≤ 'z') ∨ ('0' ≤ c ∧ c ≤ '9') ∨ c = '-' then c else '-'

/-- The replace step collapsing each run of two or more dashes into a
single dash. -/
def collapseDashes : List Char → List Char
  | [] => []
  | [c] => [c]
  | c :: d :: rest =>
    if c = '-' ∧ d = '-' then collapseDashes (d :: rest)
    else c :: collapseDashes (d :: rest)

/-- Remove one leading dash if present. -/
def dropLeadDash : List Char → List Char
  | [] => []
  | a :: t => if a = '-' then t else a :: t

/-- The replace step removing one leading and one trailing dash (the
caret-dash-or-dash-dollar pattern, global). -/
def stripEdgeDashes (l : List Char) : List Char :=
  (dropLeadDash (dropLeadDash l).reverse).reverse

/-- The base-name sanitization in generateUniqueFlyAppName (part_005,
lines 58-63): lowercase, non [a-z0-9-] to dash, collapse dashes, strip
edge dashes, cap at 25 characters. -/
def sanitizeAppName (s : List Char) : List Char :=
  (stripEdgeDashes (collapseDashes ((s.map asciiLower).map dashify))).take 25

/-- The base app name derived from the prefix and PR number. -/
def baseAppName (pfx : List Char) (prNumber : Nat) : List Char :=
  sanitizeAppName (pfx ++ ("-pr-".toList ++ (toString prNumber).toList))

/-- The existence check in generateUniqueFlyAppName (part_005, lines
66-81): some live deployment of a different project already holds the
name. -/
def nameInUseByOther (db : List Row) (name : List Char) (projectId : Nat) : Bool :=
  db.any (fun r => r.flyAppName == some name && r.projectId != projectId
    && r.status.isLive)

/-- generateUniqueFlyAppName (part_005, lines 53-90).  The random suffix
Math.random().toString(36).substring(2,6) is passed in as a parameter. -/
def generateUniqueFlyAppName (db : List Row) (basePfx : List Char)
    (prNumber projectId : Nat) (suffix : List Char) : List Char :=
  let baseName := baseAppName basePfx prNumber
  if nameInUseByOther db baseName projectId then
    (baseName ++ '-' :: suffix).take 30
  else
    baseName

/-- The storage-level unique constraint on deployment.fly_app_name
(part_004, line 47): an insert with a name already present fails. -/
def nameTaken (db : List Row) (name : List Char) : Bool :=
  db.any (fun r => r.flyAppName == some name)

/-- Observable side effects of a webhook handler run: PR comments and
compute-platform deletions.  The cleanup handler never actually calls the
platform (the deletion is a TODO in part_017), so platformDelete is never
emitted by the model, exactly as in the source. -/
inductive Effect where
  | pendingComment (prNumber : Nat)
  | cleanupComment (prNumber : Nat)
  | platformDelete (name : List Char)
deriving DecidableEq, Repr

/-- The UPDATE in the ready-reset branch of handleDeploymentCreation
(part_017, lines 292-308). -/
def resetRow (r : Row) (sha branch : String) (now : Int) : Row :=
  { r with
    commitSha := sha
    branch := branch
    status := .pending
    updatedAt := now
    startedAt := some now
    completedAt := none
    errorMessage := none }

/-- The row inserted by the CreateNew branch of handleDeploymentCreation
(part_017, lines 317-336). -/
def newRow (newId projectId prNumber : Nat) (prTitle branch sha : String)
    (name : List Char) (now : Int) : Row :=
  { id := newId
    projectId := projectId
    prNumber := prNumber
    prTitle := prTitle
    branch := branch
    commitSha := sha
    flyAppName := some name
    status := .pending
    errorMessage := none
    createdAt := now
    updatedAt := now
    startedAt := some now
    completedAt := none
    destroyedAt := none }

/-- The JavaScript or-else on projectConfig.flyAppNamePrefix || repoName:
a missing or empty prefix falls back to the repository name. -/
def effectivePfx (p : Project) : List Char :=
  match p.flyAppNamePfx with
  | some pfx => if pfx = [] then p.repoName else pfx
  | none => p.repoName

/-- The UPDATE ... WHERE id = rid of the ready-reset branch applied to the
whole table. -/
def resetById (db : List Row) (rid : Nat) (sha branch : String) (now : Int) : List Row :=
  db.map (fun r => if r.id = rid then resetRow r sha branch now else r)

/-- The CreateNew insert of handleDeploymentCreation.  The insert respects
the unique constraint on fly_app_name (part_004, line 47): a violating
insert throws, the handler rethrows, and no state change or comment
survives. -/
def attemptInsert (db : List Row) (proj : Project) (prNumber : Nat)
    (prTitle branch sha : String) (now : Int) (suffix : List Char) (newId : Nat) :
    List Row × List Effect :=
  let name := generateUniqueFlyAppName db (effectivePfx proj) prNumber proj.id suffix
  if nameTaken db name then (db, [])
  else (db ++ [newRow newId proj.id prNumber prTitle branch sha name now],
        [Effect.pendingComment prNumber])

/-- handleDeploymentCreation (part_017, lines 255-368).  Returns the
database after the event and the list of emitted effects. -/
def handleDeploymentCreation (db : List Row) (proj : Project)
    (prNumber : Nat) (prTitle branch sha : String) (now : Int)
    (suffix : List Char) (newId : Nat) : List Row × List Effect :=
  if proj.isActive = false then (db, [])
  else
    let dec := handleConcurrentPREvents db proj.id prNumber .openPR now
    if dec.shouldProcess = false then (db, [])
    else
      match dec.existingDeployment with
      | some e =>
        if e.status = .ready then
          (resetById db e.id sha branch now, [Effect.pendingComment prNumber])
        else
          attemptInsert db proj prNumber prTitle branch sha now suffix newId
      | none =>
        attemptInsert db proj prNumber prTitle branch sha now suffix newId

/-- Per-row effect of the first UPDATE of handleDeploymentCleanup
(part_017, lines 421-433): a row of the PR not already
destroying/destroyed is marked destroying. -/
def markRow (pid pr : Nat) (now : Int) (r : Row) : Row :=
  if rowMatches pid pr r ∧ ¬(r.status = .destroyed ∨ r.status = .destroying) then
    { r with status := .destroying, updatedAt := now }
  else r

/-- First UPDATE of handleDeploymentCleanup applied to the whole table. -/
def markDeploymentsDestroying (db : List Row) (pid pr : Nat) (now : Int) : List Row :=
  db.map (markRow pid pr now)

/-- Per-row effect of the second UPDATE of handleDeploymentCleanup
(part_017, lines 440-453): a row of the PR in destroying is marked
destroyed. -/
def finalizeRow (pid pr : Nat) (now : Int) (r : Row) : Row :=
  if rowMatches pid pr r ∧ r.status = .destroying then
    { r with status := .destroyed, destroyedAt := some now, updatedAt := now }
  else r

/-- Second UPDATE of handleDeploymentCleanup applied to the whole table. -/
def finalizeDeploymentsDestroyed (db : List Row) (pid pr : Nat) (now : Int) : List Row :=
  db.map (finalizeRow pid pr now)

/-- handleDeploymentCleanup (part_017, lines 370-485).  The platform app
deletion is a TODO in the source, so no platformDelete effect is ever
emitted. -/
def handleDeploymentCleanup (db : List Row) (proj : Project)
    (prNumber : Nat) (now : Int) : List Row × List Effect :=
  if proj.isActive = false then (db, [])
  else
    let dec := handleConcurrentPREvents db proj.id prNumber .closePR now
    if dec.shouldProcess = false then (db, [])
    else
      let targets := db.filter (fun r => rowMatches proj.id prNumber r
        && !(r.status == .destroyed || r.status == .destroying))
      if targets.isEmpty then (db, [])
      else
        (finalizeDeploymentsDestroyed
          (markDeploymentsDestroying db proj.id prNumber now) proj.id prNumber now,
         [Effect.cleanupComment prNumber])

/-- States of the deployment table reachable by processing a sequence of
create_or_update and teardown events, one at a time, starting from the
empty table.  A create event carries a fresh row id and a strictly later
timestamp than every existing row, as generated ids and wall-clock inserts
do. -/
inductive Reachable : List Row → Prop where
  | nil : Reachable []
  | create (db : List Row) (proj : Project) (prNumber : Nat)
      (prTitle branch sha : String) (now : Int) (suffix : List Char) (newId : Nat) :
      Reachable db →
      (∀ r ∈ db, r.id ≠ newId) →
      (∀ r ∈ db, r.createdAt < now) →
      Reachable (handleDeploymentCreation db proj prNumber prTitle branch sha now suffix newId).1
  | teardown (db : List Row) (proj : Project) (prNumber : Nat) (now : Int) :
      Reachable db →
      Reachable (handleDeploymentCleanup db proj prNumber now).1

/-- A row is live when its status is one of pending/building/deploying/
ready — non-terminal and non-destroyed. -/
def Row.isLive (r : Row) : Bool := r.status.isLive

/-- Row ids are pairwise distinct (primary key). -/
def IdsNodup (db : List Row) : Prop := (db.map Row.id).Nodup

/-- Creation timestamps strictly increase in insertion order. -/
def CreatedSorted (db : List Row) : Prop :=
  db.Pairwise (fun a b => a.createdAt < b.createdAt)

/-- No two rows hold the same compute-platform app name (the storage
unique constraint on fly_app_name). -/
def NamesNodup (db : List Row) : Prop :=
  db.Pairwise (fun a b => ∀ n, a.flyAppName = some n → b.flyAppName ≠ some n)

/-- Every live row is the most recent row of its (project, PR) pair. -/
def LiveLatest (db : List Row) : Prop :=
  ∀ r ∈ db, r.isLive = true → latestFor db r.projectId r.prNumber = some r

/-- The inductive invariant of the deployment table. -/
def Inv (db : List Row) : Prop :=
  IdsNodup db ∧ CreatedSorted db ∧ NamesNodup db ∧ LiveLatest db

/-- Concrete fixture project used by witnesses. -/
def exProj : Project :=
  { id := 1
    repoFullName := "o/r"
    repoName := "r".toList
    flyAppNamePfx := some "app".toList
    isActive := true }

/-- Concrete fixture row: a READY deployment of PR 7 created at t = 1000. -/
def exReady : Row :=
  { id := 1
    projectId := 1
    prNumber := 7
    prTitle := "t"
    branch := "b"
    commitSha := "s1"
    flyAppName := some "app-pr-7".toList
    status := .ready
    errorMessage := none
    createdAt := 1000
    updatedAt := 1000
    startedAt := some 1000
    completedAt := some 2000
    destroyedAt := none }

/-- Fixture: the same row in FAILED status. -/
def exFailed : Row :=
  { exReady with status := .failed }

/-- Fixture: a FAILED row whose stored app name differs from the generated
base name. -/
def exFailedOther : Row :=
  { exReady with status := .failed, flyAppName := some "other".toList }

/-- Fixture: the same row in BUILDING status. -/
def exBuilding : Row :=
  { exReady with status := .building }

/-- Fixture: the same row in DESTROYED status. -/
def exDestroyed : Row :=
  { exReady with status := .destroyed }

/-
  sanitizeWebhookPayload (src/lib/security/webhook-security.ts, lines
  123-150).  The string transform is, in order: remove script-tag spans
  (the case-insensitive lazy script-element regex, where the lazy dot
  does not cross line terminators), remove every angle bracket, trim
  edge whitespace.  JSON.parse(JSON.stringify(payload)) is the identity
  on the JSON values modelled here.
-/

/-- JavaScript line terminators, which the lazy dot does not match. -/
def isLineTerm (c : Char) : Bool :=
  c = '\n' ∨ c = '\r' ∨ c = ' ' ∨ c = ' '

/-- Case-insensitive match of a pattern at the head of the input. -/
def startsWithCI : List Char → List Char → Bool
  | [], _ => true
  | _ :: _, [] => false
  | p :: ps, c :: cs => (asciiLower p == asciiLower c) && startsWithCI ps cs

/-- After the literal open tag, consume the non-gt run and the closing
gt, returning the characters consumed so far. -/
def scriptOpenTail : List Char → Nat → Option Nat
  | [], _ => none
  | c :: cs, n => if c = '>' then some (n + 1) else scriptOpenTail cs (n + 1)

/-- Length of a script open tag at the head of the input, if any. -/
def scriptOpenLen (l : List Char) : Option Nat :=
  if startsWithCI ("<script".toList) l then scriptOpenTail (l.drop 7) 7 else none

/-- Lazy search for the close tag: distance to just past the first
close tag, failing at a line terminator (the lazy dot cannot cross
it). -/
def findCloseIdx : List Char → Option Nat
  | [] => none
  | c :: cs =>
    if startsWithCI ("</script>".toList) (c :: cs) then some 9
    else if isLineTerm c then none
    else (findCloseIdx cs).map (fun n => n + 1)

/-- Fuel-driven removal of script-element spans: at each position, if a
complete script element starts here, drop it and continue after it;
otherwise keep the character. -/
def rstAux : Nat → List Char → List Char
  | _, [] => []
  | 0, l => l
  | fuel + 1, c :: cs =>
    match scriptOpenLen (c :: cs) with
    | some n =>
      match findCloseIdx ((c :: cs).drop n) with
      | some m => rstAux fuel ((c :: cs).drop (n + m))
      | none => c :: rstAux fuel cs
    | none => c :: rstAux fuel cs

/-- The script-tag removal step.  The list length is always enough fuel
because every step consumes at least one character. -/
def removeScriptTags (l : List Char) : List Char :=
  rstAux l.length l

/-- The angle-bracket removal step: delete every lt and gt character. -/
def stripAngles (l : List Char) : List Char :=
  l.filter (fun c => !(c == '<' || c == '>'))

/-- Left trim. -/
def trimLeft (l : List Char) : List Char :=
  l.dropWhile Char.isWhitespace

/-- Right trim. -/
def trimRight (l : List Char) : List Char :=
  (l.reverse.dropWhile Char.isWhitespace).reverse

/-- Both-ends trim, the effect of String.prototype.trim. -/
def trimChars (l : List Char) : List Char :=
  trimRight (trimLeft l)

/-- The complete per-string sanitization of sanitizeWebhookPayload. -/
def sanitizeString (s : List Char) : List Char :=
  trimChars (stripAngles (removeScriptTags s))

/-- A JSON value, the domain of sanitizeWebhookPayload after the
JSON.parse(JSON.stringify(.)) deep copy. -/
inductive Json where
  | null : Json
  | bool (b : Bool) : Json
  | num (n : Int) : Json
  | str (s : List Char) : Json
  | arr (xs : List Json) : Json
  | obj (fields : List (String × Json)) : Json

mutual

/-- sanitizeValue on a single JSON value. -/
def sanitizeJson : Json → Json
  | .null => .null
  | .bool b => .bool b
  | .num n => .num n
  | .str s => .str (sanitizeString s)
  | .arr xs => .arr (sanitizeArr xs)
  | .obj fs => .obj (sanitizeObj fs)

/-- sanitizeValue mapped over an array. -/
def sanitizeArr : List Json → List Json
  | [] => []
  | x :: xs => sanitizeJson x :: sanitizeArr xs

/-- sanitizeValue mapped over the entries of an object. -/
def sanitizeObj : List (String × Json) → List (String × Json)
  | [] => []
  | kv :: fs => (kv.1, sanitizeJson kv.2) :: sanitizeObj fs

end

/-- sanitizeWebhookPayload (webhook-security.ts, lines 123-150): deep
copy (identity here) followed by recursive string sanitization. -/
def sanitizeWebhookPayload (payload : Json) : Json :=
  sanitizeJson payload

/-- A sanitized string: no angle brackets, no edge whitespace. -/
def cleanStr (s : List Char) : Prop :=
  ('<' ∉ s) ∧ ('>' ∉ s) ∧
  (∀ c ∈ s.head?, c.isWhitespace = false) ∧
  (∀ c ∈ s.getLast?, c.isWhitespace = false)

mutual

/-- Every string value of the JSON value is sanitized. -/
def JsonClean : Json → Prop
  | .null => True
  | .bool _ => True
  | .num _ => True
  | .str s => cleanStr s
  | .arr xs => JsonCleanArr xs
  | .obj fs => JsonCleanObj fs

/-- Every string value in the array is sanitized. -/
def JsonCleanArr : List Json → Prop
  | [] => True
  | x :: xs => JsonClean x ∧ JsonCleanArr xs

/-- Every string value in the object entries is sanitized. -/
def JsonCleanObj : List (String × Json) → Prop
  | [] => True
  | kv :: fs => JsonClean kv.2 ∧ JsonCleanObj fs

end

/-
  Deployment failure path (src/lib/fly/deployment-service.ts).
-/

/-- The clone URL built by cloneRepository (deployment-service.ts, line
112): the installation access token is embedded in the URL. -/
def cloneUrl (token repoFullName : String) : String :=
  "https://x-access-token:" ++ token ++ "@github.com/" ++ repoFullName ++ ".git"

/-- The message of the error thrown when execAsync(git clone ...) fails
(deployment-service.ts, line 114): a Node child_process exec error
message carries the failed command line, token included. -/
def cloneFailureMessage (token repoFullName tempDir : String) : String :=
  "Command failed: git clone " ++ cloneUrl token repoFullName ++ " " ++ tempDir

/-- handleDeploymentError (deployment-service.ts, lines 319-334): the
row is marked failed and error.message is stored verbatim. -/
def handleDeploymentError (db : List Row) (deploymentId : Nat)
    (message : String) (now : Int) : List Row :=
  db.map (fun r =>
    if r.id = deploymentId then
      { r with
        status := .failed
        errorMessage := some message
        completedAt := some now
        updatedAt := now }
    else r)

/-- deployPullRequest (deployment-service.ts, lines 27-73) when the git
clone step throws: the catch block stores the raw exec error message. -/
def deployCloneFailure (db : List Row) (deploymentId : Nat)
    (token repoFullName tempDir : String) (now : Int) : List Row :=
  handleDeploymentError db deploymentId
    (cloneFailureMessage token repoFullName tempDir) now

/-- Substring occurrence check. -/
def containsSeg (needle hay : List Char) : Bool :=
  (List.range (hay.length + 1)).any
    (fun i => (hay.drop i).take needle.length == needle)

/-
  Webhook ingress (part_017 POST and webhook-security.ts).
-/

/-- Error codes of WebhookSecurityError (webhook-security.ts, lines
28-36). -/
inductive SecErr where
  | replay
  | rateLimit
  | payloadSize
  | invalidEvent
deriving DecidableEq, Repr

/-- The process-local mutable state of webhook-security.ts: the replay
delivery cache and the per-IP rate-limit counters. -/
structure SecurityState where
  deliveryCache : List String
  rateLimit : List (String × Nat)
deriving DecidableEq, Repr

/-- rateLimitCache.get with a zero default. -/
def rateCount (rl : List (String × Nat)) (ip : String) : Nat :=
  match rl.find? (fun p => p.1 == ip) with
  | some p => p.2
  | none => 0

/-- rateLimitCache.set. -/
def rateSet (rl : List (String × Nat)) (ip : String) (n : Nat) : List (String × Nat) :=
  match rl.find? (fun p => p.1 == ip) with
  | some _ => rl.map (fun p => if p.1 == ip then (p.1, n) else p)
  | none => (ip, n) :: rl

/-- validateWebhookSecurity (webhook-security.ts, lines 41-87) with the
default options: max payload 5 MB, allowed events pull_request and ping,
30 requests per minute.  Returns the error (if any) and the state after
the call: the delivery id is cached and the rate counter incremented
before any signature verification happens in the route. -/
def validateWebhookSecurity (st : SecurityState)
    (deliveryId event sourceIp : String) (payloadSize : Nat) :
    Option SecErr × SecurityState :=
  if payloadSize > 5242880 then (some .payloadSize, st)
  else if ¬(event = "pull_request" ∨ event = "ping") then (some .invalidEvent, st)
  else if deliveryId ∈ st.deliveryCache then (some .replay, st)
  else
    let st1 : SecurityState := { st with deliveryCache := deliveryId :: st.deliveryCache }
    let c := rateCount st1.rateLimit sourceIp
    if c ≥ 30 then (some .rateLimit, st1)
    else (none, { st1 with rateLimit := rateSet st1.rateLimit sourceIp (c + 1) })

/-- Value of a single hexadecimal digit, case-insensitive, as in Node's
hex decoding. -/
def hexVal (c : Char) : Option Nat :=
  if '0' ≤ c ∧ c ≤ '9' then some (c.toNat - 48)
  else if 'a' ≤ c ∧ c ≤ 'f' then some (c.toNat - 87)
  else if 'A' ≤ c ∧ c ≤ 'F' then some (c.toNat - 55)
  else none

/-- Buffer.from(s, hex): decode byte pairs from the left, stopping at
the first invalid digit or incomplete pair and returning the bytes
decoded so far. -/
def hexDecode : List Char → List Nat
  | c1 :: c2 :: rest =>
    match hexVal c1, hexVal c2 with
    | some hi, some lo => (16 * hi + lo) :: hexDecode rest
    | _, _ => []
  | _ => []

/-- String.prototype.split at a separator character. -/
def splitSep (sep : Char) : List Char → List (List Char)
  | [] => [[]]
  | c :: cs =>
    match splitSep sep cs with
    | [] => [[]]
    | h :: t => if c = sep then [] :: h :: t else (c :: h) :: t

/-- verifyWebhookSignature (webhook-verification.ts, staged as the
second document of src/lib/github/services/installations.ts, lines
269-336): reject an empty signature or secret; split the header at the
equals signs and require exactly two parts with the first equal to
sha256; hex-decode the provided digest and the expected lowercase-hex
HMAC digest the Node way (case-insensitive, stopping at the first
invalid or incomplete pair); reject on a byte-length mismatch, else
compare the byte strings with timingSafeEqual, which on equal lengths
is equality.  The HMAC itself is abstracted as a function parameter
producing the lowercase hex digest.  Note the decoding makes the check
lax: an uppercase-hex digest, or a correct digest followed by non-hex
garbage, is accepted. -/
def verifyWebhookSignature (hmacHex : String → String → String)
    (body signature secret : String) : Bool :=
  if signature = "" ∨ secret = "" then false
  else
    match splitSep '=' signature.toList with
    | [p0, p1] =>
      if p0 = "sha256".toList then
        if (hexDecode p1).length ≠ (hexDecode (hmacHex secret body).toList).length
          then false
          else hexDecode p1 == hexDecode (hmacHex secret body).toList
      else false
    | _ => false

/-- The fields of a pull_request webhook payload that the route reads. -/
structure Payload where
  action : String
  prNumber : Int
  prTitle : String
  headRef : String
  headSha : String
  repoFullName : String
  repoOwner : String
  repoName : String
deriving DecidableEq, Repr

/-- Per-field application of the string sanitizer. -/
def sanitizeField (s : String) : String :=
  String.mk (sanitizeString s.toList)

/-- sanitizeWebhookPayload applied to a pull_request payload: every
string field is sanitized, numbers unchanged. -/
def sanitizePayload (p : Payload) : Payload :=
  { action := sanitizeField p.action
    prNumber := p.prNumber
    prTitle := sanitizeField p.prTitle
    headRef := sanitizeField p.headRef
    headSha := sanitizeField p.headSha
    repoFullName := sanitizeField p.repoFullName
    repoOwner := sanitizeField p.repoOwner
    repoName := sanitizeField p.repoName }

/-- The character class of the repository full-name pattern in
validateWebhookPayload (part_005, line 294). -/
def validRepoChar (c : Char) : Bool :=
  ('a' ≤ c ∧ c ≤ 'z') ∨ ('A' ≤ c ∧ c ≤ 'Z') ∨ ('0' ≤ c ∧ c ≤ '9') ∨
    c = '-' ∨ c = '_' ∨ c = '.'

/-- validateWebhookPayload (part_005, lines 270-302).  JavaScript
falsiness makes a zero PR number or an empty action or full name count
as a missing field; the repository name must be owner slash repo with
both parts nonempty over the allowed character class. -/
def validateWebhookPayload (p : Payload) : Bool :=
  if p.prNumber = 0 ∨ p.repoFullName = "" ∨ p.action = "" then false
  else if p.prNumber < 1 ∨ p.prNumber > 999999 then false
  else
    match splitSep '/' p.repoFullName.toList with
    | [a, b] => !a.isEmpty && !b.isEmpty && (a ++ b).all validRepoChar
    | _ => false

/-- The PR actions the route processes (webhook-types.ts, lines
67-72). -/
def supportedPRActions : List String :=
  ["opened", "synchronize", "reopened", "closed"]

/-- An inbound webhook request: headers, raw body (its length stands for
the byte length), and the result of JSON.parse on the body (none for a
malformed body). -/
structure WebhookRequest where
  event : String
  deliveryId : String
  signature : String
  clientIp : String
  body : String
  parsedBody : Option Payload

/-- The response status, the security state after the request, and
whether a deployment job was enqueued (the only path that later mutates
the deployment table). -/
structure PostResult where
  status : Nat
  state : SecurityState
  queued : Bool
deriving DecidableEq, Repr

/-- The POST handler of the webhook route (part_017, lines 43-230):
secret check, security validation, signature verification, ping
handling, event filtering, JSON parsing (a parse failure reaches the
catch block and handleApiError returns 500), payload sanitization and
validation, action filtering, active-project lookup, and enqueue. -/
def POST (hmacHex : String → String → String) (secret : Option String)
    (projects : List Project) (st : SecurityState) (req : WebhookRequest) :
    PostResult :=
  match secret with
  | none => ⟨500, st, false⟩
  | some sec =>
    let vres := validateWebhookSecurity st req.deliveryId req.event
      req.clientIp req.body.length
    match vres.1 with
    | some e => ⟨if e = .rateLimit then 429 else 400, vres.2, false⟩
    | none =>
      if verifyWebhookSignature hmacHex req.body req.signature sec = false then
        ⟨401, vres.2, false⟩
      else if req.event = "ping" then ⟨200, vres.2, false⟩
      else if req.event ≠ "pull_request" then ⟨200, vres.2, false⟩
      else
        match req.parsedBody with
        | none => ⟨500, vres.2, false⟩
        | some raw =>
          let p := sanitizePayload raw
          if validateWebhookPayload p = false then ⟨400, vres.2, false⟩
          else if p.action ∉ supportedPRActions then ⟨200, vres.2, false⟩
          else
            match projects.find? (fun pc =>
                pc.repoFullName == p.repoFullName && pc.isActive) with
            | none => ⟨200, vres.2, false⟩
            | some _ => ⟨200, vres.2, true⟩

/-- A trivial HMAC stand-in for concrete instances. -/
def hmZero : String → String → String := fun _ _ => "00"

/-- The empty security state. -/
def st0 : SecurityState := ⟨[], []⟩

/-- All four security checks of validateWebhookSecurity pass. -/
def securityOk (st : SecurityState) (req : WebhookRequest) : Prop :=
  ¬ req.body.length > 5242880 ∧
  (req.event = "pull_request" ∨ req.event = "ping") ∧
  req.deliveryId ∉ st.deliveryCache ∧
  rateCount st.rateLimit req.clientIp < 30

/-- Fixture: a pull_request request whose body was tampered with, so the
signature does not verify. -/
def reqTampered : WebhookRequest :=
  { event := "pull_request", deliveryId := "d1", signature := "sha256=ff",
    clientIp := "ip", body := "x", parsedBody := none }

/-- Fixture: a well-formed payload for PR 7 of repository o slash r. -/
def exPayload : Payload :=
  { action := "opened", prNumber := 7, prTitle := "t", headRef := "b",
    headSha := "s", repoFullName := "o/r", repoOwner := "o", repoName := "r" }

/-- Fixture: a correctly signed push event (an event type the spec says
is ignored with success). -/
def reqPush : WebhookRequest :=
  { event := "push", deliveryId := "d2", signature := "sha256=00",
    clientIp := "ip", body := "x", parsedBody := some exPayload }

/-- Fixture: a correctly signed, well-formed pull_request opened
event. -/
def reqOk : WebhookRequest :=
  { event := "pull_request", deliveryId := "d3", signature := "sha256=00",
    clientIp := "ip", body := "x", parsedBody := some exPayload }

/-- Fixture: a different project's live deployment already holding the
base name for PR 7 of the app prefix. -/
def exOtherLive : Row :=
  { exReady with id := 21, projectId := 2 }

/-- Fixture: a third project's live deployment holding the suffixed
name. -/
def exOtherLive2 : Row :=
  { exReady with id := 22, projectId := 3, flyAppName := some "app-pr-7-ab".toList }

/-- A concrete reachable table: the result of one create_or_update event
on the empty table. -/
def exDb1 : List Row :=
  (handleDeploymentCreation [] exProj 7 "t" "b" "s1" 1000 [] 1).1


section Lemmas

theorem foldl_pickLater_mem (l : List Row) (acc : Option Row) (r : Row)
    (h : l.foldl pickLater acc = some r) : r ∈ l ∨ acc = some r := by
  induction l generalizing acc with
  | nil => exact Or.inr h
  | cons a t ih =>
    rcases ih (pickLater acc a) h with hm | hacc
    · exact Or.inl (List.mem_cons_of_mem a hm)
    · unfold pickLater at hacc
      match acc, hacc with
      | none, hacc =>
        exact Or.inl (by simp [Option.some.injEq] at hacc; simp [hacc])
      | some b, hacc =>
        by_cases hc : b.createdAt < a.createdAt
        · simp [hc] at hacc
          exact Or.inl (by simp [hacc])
        · simp [hc] at hacc
          exact Or.inr (by simp [hacc])

theorem latestFor_mem {db : List Row} {pid pr : Nat} {r : Row}
    (h : latestFor db pid pr = some r) :
    r ∈ db ∧ rowMatches pid pr r = true := by
  unfold latestFor at h
  rcases foldl_pickLater_mem _ none r h with hm | hnone
  · exact ⟨(List.mem_filter.mp hm).1, (List.mem_filter.mp hm).2⟩
  · cases hnone

theorem markRow_matches (pid pr : Nat) (now : Int) (r : Row) :
    rowMatches pid pr (markRow pid pr now r) = rowMatches pid pr r := by
  unfold markRow
  split <;> simp [rowMatches]

theorem finalizeRow_matches (pid pr : Nat) (now : Int) (r : Row) :
    rowMatches pid pr (finalizeRow pid pr now r) = rowMatches pid pr r := by
  unfold finalizeRow
  split <;> simp [rowMatches]

theorem foldl_pickLater_isSome (l : List Row) :
    ∀ a : Row, ∃ r, l.foldl pickLater (some a) = some r := by
  induction l with
  | nil => exact fun a => ⟨a, rfl⟩
  | cons b t ih =>
    intro a
    rw [List.foldl_cons]
    by_cases h : a.createdAt < b.createdAt
    · simpa [pickLater, h] using ih b
    · simpa [pickLater, h] using ih a

theorem latestFor_none_filter {db : List Row} {pid pr : Nat}
    (h : latestFor db pid pr = none) :
    db.filter (rowMatches pid pr) = [] := by
  unfold latestFor at h
  cases hf : db.filter (rowMatches pid pr) with
  | nil => rfl
  | cons a t =>
    rw [hf, List.foldl_cons] at h
    obtain ⟨r, hr⟩ := foldl_pickLater_isSome t a
    rw [show pickLater none a = some a from rfl, hr] at h
    cases h

theorem foldl_pickLater_sorted (l : List Row) :
    ∀ a : Row, (∀ x ∈ l, a.createdAt < x.createdAt) →
      l.Pairwise (fun u v => u.createdAt < v.createdAt) →
      l.foldl pickLater (some a) = (a :: l).getLast? := by
  induction l with
  | nil => intro a _ _; rfl
  | cons b t ih =>
    intro a hall hp
    have hab : a.createdAt < b.createdAt := hall b (by simp)
    rw [List.foldl_cons, show pickLater (some a) b = some b by simp [pickLater, hab]]
    rw [ih b (List.pairwise_cons.mp hp).1 (List.pairwise_cons.mp hp).2]
    rw [List.getLast?_cons_cons]

theorem latestFor_eq_getLast {db : List Row} (hs : CreatedSorted db) (pid pr : Nat) :
    latestFor db pid pr = (db.filter (rowMatches pid pr)).getLast? := by
  unfold latestFor
  have hp : (db.filter (rowMatches pid pr)).Pairwise
      (fun u v => u.createdAt < v.createdAt) :=
    List.Pairwise.sublist (List.filter_sublist db) hs
  cases hf : db.filter (rowMatches pid pr) with
  | nil => rfl
  | cons a t =>
    rw [hf] at hp
    rw [List.foldl_cons, show pickLater none a = some a from rfl]
    exact foldl_pickLater_sorted t a (List.pairwise_cons.mp hp).1
      (List.pairwise_cons.mp hp).2

theorem pickLater_map (f : Row → Row) (hcr : ∀ r, (f r).createdAt = r.createdAt)
    (acc : Option Row) (a : Row) :
    pickLater (acc.map f) (f a) = (pickLater acc a).map f := by
  cases acc with
  | none => rfl
  | some b =>
    show (if (f b).createdAt < (f a).createdAt then some (f a) else some (f b))
        = (if b.createdAt < a.createdAt then some a else some b).map f
    rw [hcr a, hcr b]
    by_cases h : b.createdAt < a.createdAt <;> simp [h]

theorem foldl_pickLater_map (f : Row → Row)
    (hcr : ∀ r, (f r).createdAt = r.createdAt) :
    ∀ (l : List Row) (acc : Option Row),
      (l.map f).foldl pickLater (acc.map f) = (l.foldl pickLater acc).map f := by
  intro l
  induction l with
  | nil => intro acc; rfl
  | cons a t ih =>
    intro acc
    rw [List.map_cons, List.foldl_cons, List.foldl_cons, pickLater_map f hcr, ih]

theorem latestFor_map (db : List Row) (f : Row → Row)
    (hpp : ∀ r, (f r).projectId = r.projectId ∧ (f r).prNumber = r.prNumber)
    (hcr : ∀ r, (f r).createdAt = r.createdAt) (pid pr : Nat) :
    latestFor (db.map f) pid pr = (latestFor db pid pr).map f := by
  unfold latestFor
  have hfil : (db.map f).filter (rowMatches pid pr)
      = (db.filter (rowMatches pid pr)).map f := by
    rw [List.filter_map]
    congr 1
    apply List.filter_congr
    intro r _
    simp [rowMatches, (hpp r).1, (hpp r).2, Function.comp]
  rw [hfil]
  exact foldl_pickLater_map f hcr (db.filter (rowMatches pid pr)) none

theorem latestFor_append_match {db : List Row} {nr : Row} {pid pr : Nat}
    (hs : CreatedSorted (db ++ [nr])) (hm : rowMatches pid pr nr = true) :
    latestFor (db ++ [nr]) pid pr = some nr := by
  rw [latestFor_eq_getLast hs, List.filter_append]
  simp [hm]

theorem latestFor_append_nomatch (db : List Row) (nr : Row) {pid pr : Nat}
    (h : rowMatches pid pr nr = false) :
    latestFor (db ++ [nr]) pid pr = latestFor db pid pr := by
  unfold latestFor
  rw [List.filter_append]
  simp [h]

theorem eq_of_mem_ids_nodup {db : List Row} (hid : IdsNodup db) {a b : Row}
    (ha : a ∈ db) (hb : b ∈ db) (h : a.id = b.id) : a = b := by
  induction db with
  | nil => cases ha
  | cons c t ih =>
    rw [IdsNodup, List.map_cons, List.nodup_cons] at hid
    rcases List.mem_cons.mp ha with rfl | ha2 <;>
      rcases List.mem_cons.mp hb with rfl | hb2
    · rfl
    · exact absurd (h ▸ List.mem_map_of_mem Row.id hb2) hid.1
    · exact absurd (h ▸ List.mem_map_of_mem Row.id ha2) hid.1
    · exact ih hid.2 ha2 hb2

theorem Inv_core_map {db : List Row} (f : Row → Row)
    (hid : ∀ r, (f r).id = r.id)
    (hcr : ∀ r, (f r).createdAt = r.createdAt)
    (hname : ∀ r, (f r).flyAppName = r.flyAppName)
    (h1 : IdsNodup db) (h2 : CreatedSorted db) (h3 : NamesNodup db) :
    IdsNodup (db.map f) ∧ CreatedSorted (db.map f) ∧ NamesNodup (db.map f) := by
  refine ⟨?_, ?_, ?_⟩
  · unfold IdsNodup at *
    rw [List.map_map, show Row.id ∘ f = Row.id from funext hid]
    exact h1
  · unfold CreatedSorted at *
    rw [List.pairwise_map]
    exact h2.imp (by intro a b h; rw [hcr, hcr]; exact h)
  · unfold NamesNodup at *
    rw [List.pairwise_map]
    exact h3.imp (by intro a b h; rw [hname, hname]; exact h)

theorem LiveLatest_map {db : List Row} (hLL : LiveLatest db) (f : Row → Row)
    (hpp : ∀ r, (f r).projectId = r.projectId ∧ (f r).prNumber = r.prNumber)
    (hcr : ∀ r, (f r).createdAt = r.createdAt)
    (hback : ∀ r ∈ db, (f r).isLive = true → r.isLive = true) :
    LiveLatest (db.map f) := by
  intro r2 hr2 hlive2
  obtain ⟨r, hrdb, rfl⟩ := List.mem_map.mp hr2
  have hr_live := hback r hrdb hlive2
  rw [(hpp r).1, (hpp r).2, latestFor_map db f hpp hcr, hLL r hrdb hr_live]
  rfl

theorem mark_finalize_status (pid pr : Nat) (now : Int) (orig : Row)
    (hm : rowMatches pid pr orig = true) :
    (finalizeRow pid pr now (markRow pid pr now orig)).status = Status.destroyed := by
  have hm2 := hm
  simp only [rowMatches, Bool.and_eq_true, beq_iff_eq] at hm2
  unfold markRow finalizeRow
  by_cases hs : orig.status = Status.destroyed ∨ orig.status = Status.destroying
  · rcases hs with hs | hs <;> simp [rowMatches, hm2.1, hm2.2, hs]
  · simp [rowMatches, hm2.1, hm2.2, hs]

theorem creation_eq_inactive {db : List Row} {proj : Project} {prNumber : Nat}
    {prTitle branch sha : String} {now : Int} {suffix : List Char} {newId : Nat}
    (hact : proj.isActive = false) :
    handleDeploymentCreation db proj prNumber prTitle branch sha now suffix newId
      = (db, []) := by
  simp [handleDeploymentCreation, hact]

theorem creation_eq_insert_none {db : List Row} {proj : Project} {prNumber : Nat}
    {prTitle branch sha : String} {now : Int} {suffix : List Char} {newId : Nat}
    (hact : proj.isActive = true)
    (hl : latestFor db proj.id prNumber = none) :
    handleDeploymentCreation db proj prNumber prTitle branch sha now suffix newId
      = attemptInsert db proj prNumber prTitle branch sha now suffix newId := by
  simp [handleDeploymentCreation, handleConcurrentPREvents, hact, hl]

theorem creation_eq_skip_inflight {db : List Row} {proj : Project} {prNumber : Nat}
    {prTitle branch sha : String} {now : Int} {suffix : List Char} {newId : Nat}
    {e : Row} (hact : proj.isActive = true)
    (hl : latestFor db proj.id prNumber = some e)
    (hst : e.status = .pending ∨ e.status = .building ∨ e.status = .deploying) :
    handleDeploymentCreation db proj prNumber prTitle branch sha now suffix newId
      = (db, []) := by
  rcases hst with h | h | h <;>
    simp [handleDeploymentCreation, handleConcurrentPREvents, hact, hl, h]

theorem creation_eq_skip_cooldown {db : List Row} {proj : Project} {prNumber : Nat}
    {prTitle branch sha : String} {now : Int} {suffix : List Char} {newId : Nat}
    {e : Row} (hact : proj.isActive = true)
    (hl : latestFor db proj.id prNumber = some e)
    (hst : e.status = .ready) (hrec : e.createdAt > now - 300000) :
    handleDeploymentCreation db proj prNumber prTitle branch sha now suffix newId
      = (db, []) := by
  simp [handleDeploymentCreation, handleConcurrentPREvents, hact, hl, hst, hrec]

theorem creation_eq_reset {db : List Row} {proj : Project} {prNumber : Nat}
    {prTitle branch sha : String} {now : Int} {suffix : List Char} {newId : Nat}
    {e : Row} (hact : proj.isActive = true)
    (hl : latestFor db proj.id prNumber = some e)
    (hst : e.status = .ready) (hrec : ¬ e.createdAt > now - 300000) :
    handleDeploymentCreation db proj prNumber prTitle branch sha now suffix newId
      = (resetById db e.id sha branch now, [Effect.pendingComment prNumber]) := by
  simp [handleDeploymentCreation, handleConcurrentPREvents, hact, hl, hst, hrec]

theorem creation_eq_insert_nonlive {db : List Row} {proj : Project} {prNumber : Nat}
    {prTitle branch sha : String} {now : Int} {suffix : List Char} {newId : Nat}
    {e : Row} (hact : proj.isActive = true)
    (hl : latestFor db proj.id prNumber = some e)
    (hst : e.status = .failed ∨ e.status = .destroying ∨ e.status = .destroyed) :
    handleDeploymentCreation db proj prNumber prTitle branch sha now suffix newId
      = attemptInsert db proj prNumber prTitle branch sha now suffix newId := by
  rcases hst with h | h | h <;>
    simp [handleDeploymentCreation, handleConcurrentPREvents, hact, hl, h]

theorem insert_preserves_Inv {db : List Row} {proj : Project} {prNumber : Nat}
    {prTitle branch sha : String} {now : Int} {suffix : List Char} {newId : Nat}
    (hinv : Inv db) (hfresh : ∀ r ∈ db, r.id ≠ newId)
    (htime : ∀ r ∈ db, r.createdAt < now)
    (hnolive : ∀ r ∈ db, rowMatches proj.id prNumber r = true → r.isLive = false) :
    Inv (attemptInsert db proj prNumber prTitle branch sha now suffix newId).1 := by
  obtain ⟨hids, hsort, hnames, hlive⟩ := hinv
  unfold attemptInsert
  by_cases ht : nameTaken db
      (generateUniqueFlyAppName db (effectivePfx proj) prNumber proj.id suffix) = true
  · simpa [ht] using ⟨hids, hsort, hnames, hlive⟩
  · rw [if_neg ht]
    set nm := generateUniqueFlyAppName db (effectivePfx proj) prNumber proj.id suffix
    set nr := newRow newId proj.id prNumber prTitle branch sha nm now with hnr
    have hids2 : IdsNodup (db ++ [nr]) := by
      unfold IdsNodup at *
      rw [List.map_append]
      rw [List.nodup_append]
      refine ⟨hids, List.nodup_singleton _, ?_⟩
      intro x hx
      obtain ⟨r, hr, rfl⟩ := List.mem_map.mp hx
      simp only [List.map_cons, List.map_nil, List.mem_singleton]
      intro hcontra
      exact hfresh r hr (by simpa [hnr, newRow] using hcontra)
    have hsort2 : CreatedSorted (db ++ [nr]) := by
      unfold CreatedSorted at *
      rw [List.pairwise_append]
      refine ⟨hsort, List.pairwise_singleton _ _, ?_⟩
      intro a ha b hb
      rw [List.mem_singleton] at hb
      subst hb
      simpa [hnr, newRow] using htime a ha
    have hnames2 : NamesNodup (db ++ [nr]) := by
      unfold NamesNodup at *
      rw [List.pairwise_append]
      refine ⟨hnames, List.pairwise_singleton _ _, ?_⟩
      intro a ha b hb n hn
      rw [List.mem_singleton] at hb
      subst hb
      intro hcontra
      have hnm : nm = n := by simpa [hnr, newRow] using hcontra
      subst hnm
      refine absurd ?_ ht
      unfold nameTaken
      rw [List.any_eq_true]
      exact ⟨a, ha, by simp [hn]⟩
    refine ⟨hids2, hsort2, hnames2, ?_⟩
    intro r2 hr2 hlive2
    rcases List.mem_append.mp hr2 with hin | hin
    · by_cases hmm : rowMatches proj.id prNumber r2 = true
      · rw [hnolive r2 hin hmm] at hlive2
        cases hlive2
      · have hnrm : rowMatches r2.projectId r2.prNumber nr = false := by
          by_contra hc
          rw [Bool.not_eq_false] at hc
          have h1 : nr.projectId = r2.projectId ∧ nr.prNumber = r2.prNumber := by
            simpa [rowMatches] using hc
          have h2 : nr.projectId = proj.id ∧ nr.prNumber = prNumber := by
            simp [hnr, newRow]
          refine hmm ?_
          simp [rowMatches, ← h1.1, ← h1.2, h2.1, h2.2]
        rw [latestFor_append_nomatch db nr hnrm]
        exact hlive r2 hin hlive2
    · rw [List.mem_singleton] at hin
      subst hin
      have hm : rowMatches nr.projectId nr.prNumber nr = true := by
        simp [rowMatches]
      exact latestFor_append_match hsort2 hm

theorem reset_preserves_Inv {db : List Row} {pid pr : Nat} {e : Row}
    (hinv : Inv db) (hl : latestFor db pid pr = some e) (he : e.status = .ready)
    (sha branch : String) (now : Int) :
    Inv (resetById db e.id sha branch now) := by
  obtain ⟨hids, hsort, hnames, hlive⟩ := hinv
  unfold resetById
  set f := fun r : Row => if r.id = e.id then resetRow r sha branch now else r with hf
  have hid2 : ∀ r, (f r).id = r.id := by
    intro r
    simp only [hf]
    split <;> simp [resetRow]
  have hcr2 : ∀ r, (f r).createdAt = r.createdAt := by
    intro r
    simp only [hf]
    split <;> simp [resetRow]
  have hname2 : ∀ r, (f r).flyAppName = r.flyAppName := by
    intro r
    simp only [hf]
    split <;> simp [resetRow]
  have hpp2 : ∀ r, (f r).projectId = r.projectId ∧ (f r).prNumber = r.prNumber := by
    intro r
    simp only [hf]
    split <;> simp [resetRow]
  have hcore := Inv_core_map f hid2 hcr2 hname2 hids hsort hnames
  refine ⟨hcore.1, hcore.2.1, hcore.2.2, ?_⟩
  refine LiveLatest_map hlive f hpp2 hcr2 ?_
  intro r hrdb hfr
  by_cases hcase : r.id = e.id
  · have heq : r = e := eq_of_mem_ids_nodup hids hrdb (latestFor_mem hl).1 hcase
    subst heq
    simp [Row.isLive, Status.isLive, he]
  · simpa [hf, hcase] using hfr

theorem markRow_fields (pid pr : Nat) (now : Int) (r : Row) :
    (markRow pid pr now r).id = r.id ∧
    (markRow pid pr now r).createdAt = r.createdAt ∧
    (markRow pid pr now r).flyAppName = r.flyAppName ∧
    (markRow pid pr now r).projectId = r.projectId ∧
    (markRow pid pr now r).prNumber = r.prNumber := by
  unfold markRow
  split <;> simp

theorem finalizeRow_fields (pid pr : Nat) (now : Int) (r : Row) :
    (finalizeRow pid pr now r).id = r.id ∧
    (finalizeRow pid pr now r).createdAt = r.createdAt ∧
    (finalizeRow pid pr now r).flyAppName = r.flyAppName ∧
    (finalizeRow pid pr now r).projectId = r.projectId ∧
    (finalizeRow pid pr now r).prNumber = r.prNumber := by
  unfold finalizeRow
  split <;> simp

theorem mark_finalize_nomatch (pid pr : Nat) (now : Int) (r : Row)
    (hm : rowMatches pid pr r = false) :
    finalizeRow pid pr now (markRow pid pr now r) = r := by
  unfold markRow finalizeRow
  simp [hm]

theorem cleanup_preserves_Inv (db : List Row) (proj : Project)
    (prNumber : Nat) (now : Int) (hinv : Inv db) :
    Inv (handleDeploymentCleanup db proj prNumber now).1 := by
  unfold handleDeploymentCleanup
  dsimp only
  split
  · exact hinv
  split
  · exact hinv
  split
  · exact hinv
  · obtain ⟨hids, hsort, hnames, hlive⟩ := hinv
    show Inv (finalizeDeploymentsDestroyed
      (markDeploymentsDestroying db proj.id prNumber now) proj.id prNumber now)
    unfold finalizeDeploymentsDestroyed markDeploymentsDestroying
    rw [List.map_map]
    set g := finalizeRow proj.id prNumber now ∘ markRow proj.id prNumber now with hg
    have hid2 : ∀ r, (g r).id = r.id := fun r => by
      rw [hg, Function.comp_apply, (finalizeRow_fields _ _ _ _).1,
        (markRow_fields _ _ _ _).1]
    have hcr2 : ∀ r, (g r).createdAt = r.createdAt := fun r => by
      rw [hg, Function.comp_apply, (finalizeRow_fields _ _ _ _).2.1,
        (markRow_fields _ _ _ _).2.1]
    have hname2 : ∀ r, (g r).flyAppName = r.flyAppName := fun r => by
      rw [hg, Function.comp_apply, (finalizeRow_fields _ _ _ _).2.2.1,
        (markRow_fields _ _ _ _).2.2.1]
    have hpp2 : ∀ r, (g r).projectId = r.projectId ∧ (g r).prNumber = r.prNumber :=
      fun r => by
        rw [hg, Function.comp_apply]
        exact ⟨by rw [(finalizeRow_fields _ _ _ _).2.2.2.1,
            (markRow_fields _ _ _ _).2.2.2.1],
          by rw [(finalizeRow_fields _ _ _ _).2.2.2.2,
            (markRow_fields _ _ _ _).2.2.2.2]⟩
    have hcore := Inv_core_map g hid2 hcr2 hname2 hids hsort hnames
    refine ⟨hcore.1, hcore.2.1, hcore.2.2, ?_⟩
    refine LiveLatest_map hlive g hpp2 hcr2 ?_
    intro r hrdb hgr
    by_cases hmm : rowMatches proj.id prNumber r = true
    · exfalso
      have hdestroyed := mark_finalize_status proj.id prNumber now r hmm
      rw [hg] at hgr
      rw [Function.comp_apply] at hgr
      rw [Row.isLive, hdestroyed] at hgr
      cases hgr
    · rw [Bool.not_eq_true] at hmm
      rw [hg, Function.comp_apply, mark_finalize_nomatch _ _ _ _ hmm] at hgr
      exact hgr

theorem nolive_of_latest_nonlive {db : List Row} (hinv : Inv db) {pid pr : Nat}
    {e : Row} (hl : latestFor db pid pr = some e) (he : e.isLive = false) :
    ∀ r ∈ db, rowMatches pid pr r = true → r.isLive = false := by
  intro r hr hm
  by_contra hc
  rw [Bool.not_eq_false] at hc
  have hmm : r.projectId = pid ∧ r.prNumber = pr := by
    simpa [rowMatches] using hm
  have hlat := hinv.2.2.2 r hr hc
  rw [hmm.1, hmm.2, hl] at hlat
  injection hlat with heq
  rw [heq] at he
  rw [he] at hc
  cases hc

theorem creation_preserves_Inv (db : List Row) (proj : Project) (prNumber : Nat)
    (prTitle branch sha : String) (now : Int) (suffix : List Char) (newId : Nat)
    (hinv : Inv db) (hfresh : ∀ r ∈ db, r.id ≠ newId)
    (htime : ∀ r ∈ db, r.createdAt < now) :
    Inv (handleDeploymentCreation db proj prNumber prTitle branch sha now suffix newId).1 := by
  by_cases hact : proj.isActive = false
  · rw [creation_eq_inactive hact]
    exact hinv
  · have hact2 : proj.isActive = true := by simpa using hact
    cases hl : latestFor db proj.id prNumber with
    | none =>
      rw [creation_eq_insert_none hact2 hl]
      apply insert_preserves_Inv hinv hfresh htime
      intro r hr hm
      exfalso
      have hin : r ∈ db.filter (rowMatches proj.id prNumber) :=
        List.mem_filter.mpr ⟨hr, hm⟩
      rw [latestFor_none_filter hl] at hin
      cases hin
    | some e =>
      cases hst : e.status with
      | pending =>
        rw [creation_eq_skip_inflight hact2 hl (Or.inl hst)]
        exact hinv
      | building =>
        rw [creation_eq_skip_inflight hact2 hl (Or.inr (Or.inl hst))]
        exact hinv
      | deploying =>
        rw [creation_eq_skip_inflight hact2 hl (Or.inr (Or.inr hst))]
        exact hinv
      | ready =>
        by_cases hrec : e.createdAt > now - 300000
        · rw [creation_eq_skip_cooldown hact2 hl hst hrec]
          exact hinv
        · rw [creation_eq_reset hact2 hl hst hrec]
          exact reset_preserves_Inv hinv hl hst sha branch now
      | failed =>
        rw [creation_eq_insert_nonlive hact2 hl (Or.inl hst)]
        exact insert_preserves_Inv hinv hfresh htime
          (nolive_of_latest_nonlive hinv hl
            (by simp [Row.isLive, Status.isLive, hst]))
      | destroying =>
        rw [creation_eq_insert_nonlive hact2 hl (Or.inr (Or.inl hst))]
        exact insert_preserves_Inv hinv hfresh htime
          (nolive_of_latest_nonlive hinv hl
            (by simp [Row.isLive, Status.isLive, hst]))
      | destroyed =>
        rw [creation_eq_insert_nonlive hact2 hl (Or.inr (Or.inr hst))]
        exact insert_preserves_Inv hinv hfresh htime
          (nolive_of_latest_nonlive hinv hl
            (by simp [Row.isLive, Status.isLive, hst]))

theorem Inv_nil : Inv [] :=
  ⟨by simp [IdsNodup], by simp [CreatedSorted], by simp [NamesNodup],
   by intro r hr; cases hr⟩

theorem Reachable_Inv {db : List Row} (h : Reachable db) : Inv db := by
  induction h with
  | nil => exact Inv_nil
  | create db proj prNumber prTitle branch sha now suffix newId hr hfresh htime ih =>
    exact creation_preserves_Inv db proj prNumber prTitle branch sha now suffix newId
      ih hfresh htime
  | teardown db proj prNumber now hr ih =>
    exact cleanup_preserves_Inv db proj prNumber now ih

theorem mem_collapseDashes : ∀ (l : List Char) (c : Char),
    c ∈ collapseDashes l → c ∈ l := by
  intro l
  induction l with
  | nil => intro c h; cases h
  | cons a t ih =>
    cases t with
    | nil =>
      intro c h
      simpa [collapseDashes] using h
    | cons b t2 =>
      intro c h
      rw [collapseDashes] at h
      by_cases hd : a = '-' ∧ b = '-'
      · rw [if_pos hd] at h
        exact List.mem_cons_of_mem a (ih c h)
      · rw [if_neg hd] at h
        rcases List.mem_cons.mp h with rfl | h2
        · exact List.mem_cons_self _ _
        · exact List.mem_cons_of_mem a (ih c h2)

theorem mem_dropLeadDash (l : List Char) (c : Char)
    (h : c ∈ dropLeadDash l) : c ∈ l := by
  cases l with
  | nil => cases h
  | cons a t =>
    rw [dropLeadDash] at h
    by_cases ha : a = '-'
    · rw [if_pos ha] at h
      exact List.mem_cons_of_mem a h
    · rwa [if_neg ha] at h

theorem mem_stripEdgeDashes (l : List Char) (c : Char)
    (h : c ∈ stripEdgeDashes l) : c ∈ l := by
  unfold stripEdgeDashes at h
  rw [List.mem_reverse] at h
  have h2 := mem_dropLeadDash _ _ h
  rw [List.mem_reverse] at h2
  exact mem_dropLeadDash _ _ h2

theorem dashify_ok (c : Char) :
    ('a' ≤ dashify c ∧ dashify c ≤ 'z') ∨
    ('0' ≤ dashify c ∧ dashify c ≤ '9') ∨ dashify c = '-' := by
  unfold dashify
  split
  · assumption
  · simp

theorem sanitizeAppName_chars (s : List Char) :
    ∀ c ∈ sanitizeAppName s,
      ('a' ≤ c ∧ c ≤ 'z') ∨ ('0' ≤ c ∧ c ≤ '9') ∨ c = '-' := by
  intro c hc
  unfold sanitizeAppName at hc
  have h1 := List.mem_of_mem_take hc
  have h2 := mem_collapseDashes _ _ (mem_stripEdgeDashes _ _ h1)
  rw [List.map_map] at h2
  obtain ⟨d, _, rfl⟩ := List.mem_map.mp h2
  exact dashify_ok (asciiLower d)

theorem sanitizeAppName_length (s : List Char) :
    (sanitizeAppName s).length ≤ 25 := by
  unfold sanitizeAppName
  rw [List.length_take]
  exact min_le_left _ _

theorem suffixed_ne_base {base suffix : List Char} (hb : base.length ≤ 25) :
    (base ++ '-' :: suffix).take 30 ≠ base := by
  intro heq
  have hlen := congrArg List.length heq
  rw [List.length_take, List.length_append, List.length_cons] at hlen
  omega

theorem asciiLower_eq_lt {c : Char} (h : asciiLower c = '<') : c = '<' := by
  unfold asciiLower at h
  split at h <;> first
    | exact h
    | exact absurd h (by decide)

theorem scriptOpenLen_none_of_ne {c : Char} (h : c ≠ '<') (cs : List Char) :
    scriptOpenLen (c :: cs) = none := by
  have hlow : (asciiLower '<' == asciiLower c) = false := by
    rw [show asciiLower '<' = '<' from rfl, beq_eq_false_iff_ne]
    intro heq
    exact h (asciiLower_eq_lt heq.symm)
  have hsw : startsWithCI (['<', 's', 'c', 'r', 'i', 'p', 't']) (c :: cs) = false := by
    rw [startsWithCI, hlow]
    rfl
  simp [scriptOpenLen, hsw]

theorem head_dropWhile_not (p : Char → Bool) (l : List Char) :
    ∀ c ∈ (l.dropWhile p).head?, p c = false := by
  induction l with
  | nil => intro c h; cases h
  | cons a t ih =>
    intro c h
    rw [List.dropWhile_cons] at h
    by_cases hp : p a = true
    · rw [if_pos hp] at h
      exact ih c h
    · rw [if_neg hp] at h
      simp only [List.head?_cons, Option.mem_def, Option.some.injEq] at h
      subst h
      simpa using hp

theorem dropWhile_eq_self_of_head {p : Char → Bool} {l : List Char}
    (h : ∀ c ∈ l.head?, p c = false) : l.dropWhile p = l := by
  cases l with
  | nil => rfl
  | cons a t =>
    rw [List.dropWhile_cons, if_neg]
    simp [h a (by simp)]

theorem dropWhile_front (p : Char → Bool) (l : List Char) :
    ∃ u, u ++ l.dropWhile p = l := by
  induction l with
  | nil => exact ⟨[], rfl⟩
  | cons a t ih =>
    rw [List.dropWhile_cons]
    by_cases hp : p a = true
    · rw [if_pos hp]
      obtain ⟨u, hu⟩ := ih
      exact ⟨a :: u, by rw [List.cons_append, hu]⟩
    · rw [if_neg hp]
      exact ⟨[], rfl⟩

theorem trimRight_front (l : List Char) :
    ∃ t, trimRight l ++ t = l := by
  obtain ⟨u, hu⟩ := dropWhile_front Char.isWhitespace l.reverse
  refine ⟨u.reverse, ?_⟩
  have h2 := congrArg List.reverse hu
  rw [List.reverse_append, List.reverse_reverse] at h2
  exact h2

theorem rstAux_no_lt : ∀ (fuel : Nat) (l : List Char),
    l.length ≤ fuel → '<' ∉ l → rstAux fuel l = l := by
  intro fuel
  induction fuel with
  | zero =>
    intro l hl _
    cases l with
    | nil => rfl
    | cons c cs => simp at hl
  | succ f ih =>
    intro l hl hni
    cases l with
    | nil => rfl
    | cons c cs =>
      have hc : c ≠ '<' := fun hh => hni (hh ▸ List.mem_cons_self c cs)
      rw [rstAux, scriptOpenLen_none_of_ne hc cs]
      rw [ih cs (by simpa using Nat.succ_le_succ_iff.mp hl)
        (fun hmem => hni (List.mem_cons_of_mem c hmem))]

theorem removeScriptTags_no_lt {l : List Char} (h : '<' ∉ l) :
    removeScriptTags l = l :=
  rstAux_no_lt l.length l le_rfl h

theorem stripAngles_of_clean {l : List Char} (h1 : '<' ∉ l) (h2 : '>' ∉ l) :
    stripAngles l = l := by
  unfold stripAngles
  rw [List.filter_eq_self]
  intro a ha
  simp only [Bool.not_eq_eq_eq_not, Bool.not_true, Bool.or_eq_false_iff,
    beq_eq_false_iff_ne]
  exact ⟨fun hh => h1 (hh ▸ ha), fun hh => h2 (hh ▸ ha)⟩

theorem trimLeft_of_clean {l : List Char}
    (h : ∀ c ∈ l.head?, c.isWhitespace = false) : trimLeft l = l :=
  dropWhile_eq_self_of_head h

theorem trimRight_of_clean {l : List Char}
    (h : ∀ c ∈ l.getLast?, c.isWhitespace = false) : trimRight l = l := by
  unfold trimRight
  rw [dropWhile_eq_self_of_head (by
    intro c hc
    rw [List.head?_reverse] at hc
    exact h c hc), List.reverse_reverse]

theorem trimChars_of_clean {l : List Char}
    (hh : ∀ c ∈ l.head?, c.isWhitespace = false)
    (hl : ∀ c ∈ l.getLast?, c.isWhitespace = false) : trimChars l = l := by
  unfold trimChars
  rw [trimLeft_of_clean hh, trimRight_of_clean hl]

theorem head_trimChars (l : List Char) :
    ∀ c ∈ (trimChars l).head?, c.isWhitespace = false := by
  intro c h
  unfold trimChars at h
  obtain ⟨t, ht⟩ := trimRight_front (trimLeft l)
  cases htr : trimRight (trimLeft l) with
  | nil =>
    rw [htr] at h
    cases h
  | cons d rest =>
    rw [htr] at h ht
    simp only [List.head?_cons, Option.mem_def, Option.some.injEq] at h
    rw [← h]
    have hhead : (trimLeft l).head? = some d := by
      rw [← ht]
      rfl
    exact head_dropWhile_not Char.isWhitespace l d hhead

theorem getLast_trimChars (l : List Char) :
    ∀ c ∈ (trimChars l).getLast?, c.isWhitespace = false := by
  intro c h
  unfold trimChars trimRight at h
  rw [List.getLast?_reverse] at h
  exact head_dropWhile_not Char.isWhitespace (trimLeft l).reverse c h

theorem mem_trimChars (l : List Char) (c : Char) (h : c ∈ trimChars l) : c ∈ l := by
  unfold trimChars trimRight trimLeft at h
  rw [List.mem_reverse] at h
  have h2 := (List.dropWhile_sublist _).subset h
  rw [List.mem_reverse] at h2
  exact (List.dropWhile_sublist _).subset h2

theorem sanitizeString_clean (s : List Char) : cleanStr (sanitizeString s) := by
  refine ⟨?_, ?_, head_trimChars _, getLast_trimChars _⟩
  · intro hmem
    have h2 := mem_trimChars _ _ hmem
    have h3 := List.mem_filter.mp h2
    simp at h3
  · intro hmem
    have h2 := mem_trimChars _ _ hmem
    have h3 := List.mem_filter.mp h2
    simp at h3

theorem sanitizeString_idem (s : List Char) :
    sanitizeString (sanitizeString s) = sanitizeString s := by
  obtain ⟨h1, h2, h3, h4⟩ := sanitizeString_clean s
  show trimChars (stripAngles (removeScriptTags (sanitizeString s))) = sanitizeString s
  rw [removeScriptTags_no_lt h1, stripAngles_of_clean h1 h2,
    trimChars_of_clean h3 h4]

mutual

theorem sanitizeJson_idem : ∀ j : Json,
    sanitizeJson (sanitizeJson j) = sanitizeJson j
  | .null => rfl
  | .bool _ => rfl
  | .num _ => rfl
  | .str s => by
    simp only [sanitizeJson]
    rw [sanitizeString_idem]
  | .arr xs => by
    simp only [sanitizeJson]
    rw [sanitizeArr_idem xs]
  | .obj fs => by
    simp only [sanitizeJson]
    rw [sanitizeObj_idem fs]

theorem sanitizeArr_idem : ∀ xs : List Json,
    sanitizeArr (sanitizeArr xs) = sanitizeArr xs
  | [] => rfl
  | x :: xs => by
    simp only [sanitizeArr]
    rw [sanitizeJson_idem x, sanitizeArr_idem xs]

theorem sanitizeObj_idem : ∀ fs : List (String × Json),
    sanitizeObj (sanitizeObj fs) = sanitizeObj fs
  | [] => rfl
  | kv :: fs => by
    simp only [sanitizeObj]
    rw [sanitizeJson_idem kv.2, sanitizeObj_idem fs]

end

mutual

theorem sanitizeJson_clean : ∀ j : Json, JsonClean (sanitizeJson j)
  | .null => trivial
  | .bool _ => trivial
  | .num _ => trivial
  | .str s => by
    simp only [sanitizeJson, JsonClean]
    exact sanitizeString_clean s
  | .arr xs => by
    simp only [sanitizeJson, JsonClean]
    exact sanitizeArr_clean xs
  | .obj fs => by
    simp only [sanitizeJson, JsonClean]
    exact sanitizeObj_clean fs

theorem sanitizeArr_clean : ∀ xs : List Json, JsonCleanArr (sanitizeArr xs)
  | [] => trivial
  | x :: xs => by
    simp only [sanitizeArr, JsonCleanArr]
    exact ⟨sanitizeJson_clean x, sanitizeArr_clean xs⟩

theorem sanitizeObj_clean : ∀ fs : List (String × Json),
    JsonCleanObj (sanitizeObj fs)
  | [] => trivial
  | kv :: fs => by
    simp only [sanitizeObj, JsonCleanObj]
    exact ⟨sanitizeJson_clean kv.2, sanitizeObj_clean fs⟩

end

theorem verifyWebhookSignature_accepts_uppercase :
    verifyWebhookSignature (fun _ _ => "ab") "body" "sha256=AB" "sec" = true := by
  decide

theorem verifyWebhookSignature_accepts_trailing :
    verifyWebhookSignature (fun _ _ => "ab") "body" "sha256=abzz" "sec" = true := by
  decide

theorem verifyWebhookSignature_rejects_double_eq :
    verifyWebhookSignature (fun _ _ => "ab") "body" "sha256=ab=" "sec" = false := by
  decide

theorem validateWebhookSecurity_ok {st : SecurityState} {req : WebhookRequest}
    (h : securityOk st req) :
    validateWebhookSecurity st req.deliveryId req.event req.clientIp req.body.length
      = (none, ⟨req.deliveryId :: st.deliveryCache,
          rateSet st.rateLimit req.clientIp
            (rateCount st.rateLimit req.clientIp + 1)⟩) := by
  obtain ⟨h1, h2, h3, h4⟩ := h
  have hge : ¬ rateCount st.rateLimit req.clientIp ≥ 30 := by omega
  rcases h2 with h | h <;>
    simp [validateWebhookSecurity, h1, h, h3, hge]

end Lemmas

section ClaimTheorems

/-- C1: in every state of the deployment table reachable by processing
any sequence of create_or_update and teardown events, at most one row per
(project, PR number) pair is in a non-terminal, non-destroyed
(pending/building/deploying/ready) status, and no two non-destroyed
rows hold the same compute-platform app name. -/
theorem claim_C1 (db : List Row) (h : Reachable db) :
    (∀ pid pr : Nat,
      (db.filter (fun r => rowMatches pid pr r && r.isLive)).length ≤ 1) ∧
    db.Pairwise (fun a b => a.status ≠ .destroyed → b.status ≠ .destroyed →
      ∀ n, a.flyAppName = some n → b.flyAppName ≠ some n) := by
  obtain ⟨hids, hsort, hnames, hlive⟩ := Reachable_Inv h
  constructor
  · intro pid pr
    by_contra hlen
    push_neg at hlen
    cases hfil : db.filter (fun r => rowMatches pid pr r && r.isLive) with
    | nil =>
      rw [hfil] at hlen
      simp at hlen
    | cons a t =>
      cases t with
      | nil =>
        rw [hfil] at hlen
        simp at hlen
      | cons b t2 =>
        have hsub : List.Sublist [a, b] db := by
          have h1 : List.Sublist [a, b] (a :: b :: t2) :=
            List.Sublist.cons₂ a (List.Sublist.cons₂ b (List.nil_sublist t2))
          have h2 : List.Sublist (a :: b :: t2) db := hfil ▸ List.filter_sublist db
          exact h1.trans h2
        have hmema : a ∈ db.filter (fun r => rowMatches pid pr r && r.isLive) := by
          rw [hfil]; exact List.mem_cons_self a _
        have hmemb : b ∈ db.filter (fun r => rowMatches pid pr r && r.isLive) := by
          rw [hfil]; exact List.mem_cons_of_mem a (List.mem_cons_self b _)
        have hpa := List.mem_filter.mp hmema
        have hpb := List.mem_filter.mp hmemb
        have hma : rowMatches pid pr a = true ∧ a.isLive = true := by
          simpa using hpa.2
        have hmb : rowMatches pid pr b = true ∧ b.isLive = true := by
          simpa using hpb.2
        have heqa : latestFor db pid pr = some a := by
          have hmm : a.projectId = pid ∧ a.prNumber = pr := by
            simpa [rowMatches] using hma.1
          have := hlive a hpa.1 hma.2
          rwa [hmm.1, hmm.2] at this
        have heqb : latestFor db pid pr = some b := by
          have hmm : b.projectId = pid ∧ b.prNumber = pr := by
            simpa [rowMatches] using hmb.1
          have := hlive b hpb.1 hmb.2
          rwa [hmm.1, hmm.2] at this
        have hab : a = b := by
          rw [heqa] at heqb
          injection heqb
        have hnodup : ([a, b].map Row.id).Nodup :=
          List.Nodup.sublist (hsub.map Row.id) hids
        rw [hab] at hnodup
        simp at hnodup
  · refine hnames.imp ?_
    intro a b hab _ _
    exact hab

/-- Witness for C1 at a concrete reachable state: the table obtained by
one create_or_update event on the empty table, checked for PR 7 of
project 1. -/
theorem claim_C1_witness :
    (exDb1.filter (fun r => rowMatches 1 7 r && r.isLive)).length ≤ 1 :=
  (claim_C1 exDb1
    (Reachable.create [] exProj 7 "t" "b" "s1" 1000 [] 1 Reachable.nil
      (by simp) (by simp))).1 1 7

/-- C2: if the most recent deployment row for a (project, PR) pair is
READY, a create_or_update event arriving less than 5 minutes after the
row's creation time is skipped (no row inserted, no status change, no
comment), and an event arriving 5 minutes or more after creation resets
that same row to PENDING with the commit SHA and branch updated to the
event's values. -/
theorem claim_C2 (db : List Row) (proj : Project) (prNumber : Nat)
    (prTitle branch sha : String) (now : Int) (suffix : List Char) (newId : Nat)
    (hact : proj.isActive = true) (r : Row)
    (hl : latestFor db proj.id prNumber = some r) (hr : r.status = .ready) :
    (now - r.createdAt < 300000 →
      handleDeploymentCreation db proj prNumber prTitle branch sha now suffix newId
        = (db, [])) ∧
    (300000 ≤ now - r.createdAt →
      handleDeploymentCreation db proj prNumber prTitle branch sha now suffix newId
        = (resetById db r.id sha branch now,
           [Effect.pendingComment prNumber])) := by
  constructor
  · intro hcool
    have hgt : r.createdAt > now - 300000 := by omega
    simp [handleDeploymentCreation, handleConcurrentPREvents, hl, hact, hr, hgt]
  · intro hcool
    have hgt : ¬ r.createdAt > now - 300000 := by omega
    simp [handleDeploymentCreation, handleConcurrentPREvents, hl, hact, hr, hgt]

/-- Witness for C2 at a concrete input: a READY row created at t = 1000
receives a create_or_update event at t = 400000 (past the cooldown) and is
reset in place. -/
theorem claim_C2_witness :
    handleDeploymentCreation [exReady] exProj 7 "t" "b2" "s2" 400000 [] 2
      = ([resetRow exReady "s2" "b2" 400000], [Effect.pendingComment 7]) := by
  have h := (claim_C2 [exReady] exProj 7 "t" "b2" "s2" 400000 [] 2
    (by decide) exReady (by decide) (by decide)).2 (by decide)
  rw [h]
  decide

/-- Counterexample to C3 as stated: with the most recent row FAILED the
code does not reuse and reset the existing row.  When the failed row still
holds the generated name, nothing at all happens (the fresh insert
violates the fly_app_name unique constraint); when the stored name
differs, a second row is inserted instead of the failed row being reset. -/
theorem claim_C3_counterexample :
    handleDeploymentCreation [exFailed] exProj 7 "t" "b2" "s2" 400000 [] 2
      ≠ ([resetRow exFailed "s2" "b2" 400000], [Effect.pendingComment 7]) ∧
    (handleDeploymentCreation [exFailedOther] exProj 7 "t" "b2" "s2" 400000
        "ab".toList 2).1.length = 2 := by
  constructor
  · decide
  · decide

/-- C3 (amended): if the most recent row for the pair is FAILED, the event
is processed immediately with no cooldown, but instead of reusing the
failed row the code attempts to insert a brand-new row: the failed row is
left unchanged, and the insert succeeds exactly when the generated app
name is not already taken by any existing row (otherwise the
unique-constraint violation aborts the event with no state change). -/
theorem claim_C3 (db : List Row) (proj : Project) (prNumber : Nat)
    (prTitle branch sha : String) (now : Int) (suffix : List Char) (newId : Nat)
    (hact : proj.isActive = true) (r : Row)
    (hl : latestFor db proj.id prNumber = some r) (hf : r.status = .failed) :
    handleDeploymentCreation db proj prNumber prTitle branch sha now suffix newId
      = (if nameTaken db (generateUniqueFlyAppName db (effectivePfx proj) prNumber proj.id suffix)
          then (db, [])
          else (db ++ [newRow newId proj.id prNumber prTitle branch sha
                  (generateUniqueFlyAppName db (effectivePfx proj) prNumber proj.id suffix) now],
                [Effect.pendingComment prNumber])) := by
  simp [handleDeploymentCreation, handleConcurrentPREvents, attemptInsert, hl, hact, hf]

/-- Witness for C3 at a concrete input: the FAILED row keeps a different
name, so a second pending row is appended and the failed row survives
unchanged. -/
theorem claim_C3_witness :
    handleDeploymentCreation [exFailedOther] exProj 7 "t" "b2" "s2" 400000 "ab".toList 2
      = ([exFailedOther,
          newRow 2 1 7 "t" "b2" "s2" ("app-pr-7".toList) 400000], [Effect.pendingComment 7]) := by
  have h := claim_C3 [exFailedOther] exProj 7 "t" "b2" "s2" 400000 "ab".toList 2
    (by decide) exFailedOther (by decide) (by decide)
  rw [h]
  decide

/-- Counterexample to C4 as stated: a teardown event for a PR whose row is
BUILDING marks that row destroying in the first UPDATE and destroyed in
the second; the Destroy transition is not deferred to a terminal state. -/
theorem claim_C4_counterexample :
    (markDeploymentsDestroying [exBuilding] 1 7 500000).map Row.status
        = [Status.destroying] ∧
    ((handleDeploymentCleanup [exBuilding] exProj 7 500000).1).map Row.status
        = [Status.destroyed] := by
  constructor
  · decide
  · decide

/-- C4 (amended): a teardown event is processed whenever the most recent
row is not already destroying/destroyed — including while BUILDING or
DEPLOYING.  Every matching row not yet destroying/destroyed (in
particular a building or deploying one) is transitioned to DESTROYING by
the first UPDATE, and every matching row ends DESTROYED. -/
theorem claim_C4 (db : List Row) (proj : Project) (prNumber : Nat) (now : Int)
    (hact : proj.isActive = true) (r : Row)
    (hl : latestFor db proj.id prNumber = some r)
    (hnd : ¬(r.status = .destroying ∨ r.status = .destroyed)) :
    handleDeploymentCleanup db proj prNumber now
      = (finalizeDeploymentsDestroyed
           (markDeploymentsDestroying db proj.id prNumber now) proj.id prNumber now,
         [Effect.cleanupComment prNumber]) ∧
    (∀ row ∈ db, rowMatches proj.id prNumber row = true →
      (row.status = .building ∨ row.status = .deploying) →
      { row with status := Status.destroying, updatedAt := now }
        ∈ markDeploymentsDestroying db proj.id prNumber now) ∧
    (∀ row ∈ (handleDeploymentCleanup db proj prNumber now).1,
      rowMatches proj.id prNumber row = true → row.status = .destroyed) := by
  have hmem := latestFor_mem hl
  have h1 : r.status ≠ Status.destroying := fun h => hnd (Or.inl h)
  have h2 : r.status ≠ Status.destroyed := fun h => hnd (Or.inr h)
  have hmain : handleDeploymentCleanup db proj prNumber now
      = (finalizeDeploymentsDestroyed
           (markDeploymentsDestroying db proj.id prNumber now) proj.id prNumber now,
         [Effect.cleanupComment prNumber]) := by
    simp [handleDeploymentCleanup, handleConcurrentPREvents, hl, hact, hnd,
      markDeploymentsDestroying, finalizeDeploymentsDestroyed]
    exact ⟨r, hmem.1, hmem.2, h2, h1⟩
  refine ⟨hmain, ?_, ?_⟩
  · intro row hrow hmatch hst
    unfold markDeploymentsDestroying
    have hval : ({ row with status := Status.destroying, updatedAt := now } : Row)
        = markRow proj.id prNumber now row := by
      rcases hst with h | h <;> simp [markRow, hmatch, h]
    rw [hval]
    exact List.mem_map_of_mem _ hrow
  · intro row hrow hmatch
    rw [hmain] at hrow
    simp only [finalizeDeploymentsDestroyed, markDeploymentsDestroying, List.map_map,
      List.mem_map, Function.comp] at hrow
    obtain ⟨orig, horig, hrow⟩ := hrow
    have hm : rowMatches proj.id prNumber orig = true := by
      rw [← hrow] at hmatch
      rwa [finalizeRow_matches, markRow_matches] at hmatch
    rw [← hrow]
    exact mark_finalize_status proj.id prNumber now orig hm

/-- Witness for C4 at a concrete input: the BUILDING fixture row. -/
theorem claim_C4_witness :
    ({ exBuilding with status := Status.destroying, updatedAt := 500000 }
      ∈ markDeploymentsDestroying [exBuilding] 1 7 500000) ∧
    (∀ row ∈ (handleDeploymentCleanup [exBuilding] exProj 7 500000).1,
      rowMatches 1 7 row = true → row.status = .destroyed) := by
  have h := claim_C4 [exBuilding] exProj 7 500000 (by decide) exBuilding
    (by decide) (by decide)
  exact ⟨h.2.1 exBuilding (by decide) (by decide) (Or.inl (by decide)),
    by simpa using h.2.2⟩

/-- C5: a teardown event for a (project, PR) pair whose most recent row is
DESTROYING or DESTROYED, or which has no row at all, is a complete no-op:
the database is unchanged and no effect (no PR comment, no platform
deletion) is emitted.  Teardown events after the first completed one are
therefore idempotent. -/
theorem claim_C5 (db : List Row) (proj : Project) (prNumber : Nat) (now : Int)
    (h : latestFor db proj.id prNumber = none ∨
      ∃ r, latestFor db proj.id prNumber = some r ∧
        (r.status = .destroying ∨ r.status = .destroyed)) :
    handleDeploymentCleanup db proj prNumber now = (db, []) := by
  by_cases hact : proj.isActive = false
  · simp [handleDeploymentCleanup, hact]
  · rcases h with hnone | ⟨r, hsome, hst⟩
    · simp [handleDeploymentCleanup, handleConcurrentPREvents, hnone, hact]
    · simp [handleDeploymentCleanup, handleConcurrentPREvents, hsome, hact, hst]

/-- Witness for C5 at a concrete input: a DESTROYED fixture row. -/
theorem claim_C5_witness :
    handleDeploymentCleanup [exDestroyed] exProj 7 600000 = ([exDestroyed], []) :=
  claim_C5 [exDestroyed] exProj 7 600000
    (Or.inr ⟨exDestroyed, by decide, Or.inr (by decide)⟩)

/-- Counterexample to C6 as stated: the uniqueness check is NOT retried
after the random suffix is appended.  With the base name held by one
other project's live deployment and the suffixed name held by yet another
project's live deployment, the function returns the suffixed name even
though it is still in use by a different project's live deployment. -/
theorem claim_C6_counterexample :
    generateUniqueFlyAppName [exOtherLive, exOtherLive2] ("app".toList) 7 1 ("ab".toList)
      = "app-pr-7-ab".toList ∧
    nameInUseByOther [exOtherLive, exOtherLive2] ("app-pr-7-ab".toList) 1 = true := by
  constructor
  · decide
  · decide

/-- C6 (amended): the generated base name is a sanitized (lowercase
alphanumeric plus hyphen, capped at 25 characters) combination of the
prefix and the PR number; when no other project's live deployment holds
it, it is returned as is; when another project's live deployment holds
it, one random suffix is appended and the result (capped at 30
characters, and distinct from the base name) is returned without any
further uniqueness check. -/
theorem claim_C6 (db : List Row) (pfx : List Char) (prNumber projectId : Nat)
    (suffix : List Char) :
    (∀ c ∈ baseAppName pfx prNumber,
      ('a' ≤ c ∧ c ≤ 'z') ∨ ('0' ≤ c ∧ c ≤ '9') ∨ c = '-') ∧
    (baseAppName pfx prNumber).length ≤ 25 ∧
    (nameInUseByOther db (baseAppName pfx prNumber) projectId = false →
      generateUniqueFlyAppName db pfx prNumber projectId suffix
        = baseAppName pfx prNumber) ∧
    (nameInUseByOther db (baseAppName pfx prNumber) projectId = true →
      generateUniqueFlyAppName db pfx prNumber projectId suffix
          = (baseAppName pfx prNumber ++ '-' :: suffix).take 30 ∧
        generateUniqueFlyAppName db pfx prNumber projectId suffix
          ≠ baseAppName pfx prNumber ∧
        (generateUniqueFlyAppName db pfx prNumber projectId suffix).length ≤ 30) := by
  refine ⟨sanitizeAppName_chars _, sanitizeAppName_length _, ?_, ?_⟩
  · intro h
    simp [generateUniqueFlyAppName, h]
  · intro h
    refine ⟨by simp [generateUniqueFlyAppName, h], ?_, ?_⟩
    · rw [show generateUniqueFlyAppName db pfx prNumber projectId suffix
          = (baseAppName pfx prNumber ++ '-' :: suffix).take 30 by
        simp [generateUniqueFlyAppName, h]]
      exact suffixed_ne_base (sanitizeAppName_length _)
    · rw [show generateUniqueFlyAppName db pfx prNumber projectId suffix
          = (baseAppName pfx prNumber ++ '-' :: suffix).take 30 by
        simp [generateUniqueFlyAppName, h]]
      rw [List.length_take]
      exact min_le_left _ _

/-- Witness for C6 at a concrete input: with the base name in use by a
different project's live deployment, the concrete regenerated name is the
suffixed one and differs from the base. -/
theorem claim_C6_witness :
    generateUniqueFlyAppName [exOtherLive] ("app".toList) 7 1 ("ab".toList)
        = (baseAppName ("app".toList) 7 ++ '-' :: "ab".toList).take 30 ∧
      generateUniqueFlyAppName [exOtherLive] ("app".toList) 7 1 ("ab".toList)
        ≠ baseAppName ("app".toList) 7 ∧
      (generateUniqueFlyAppName [exOtherLive] ("app".toList) 7 1 ("ab".toList)).length ≤ 30 :=
  (claim_C6 [exOtherLive] ("app".toList) 7 1 ("ab".toList)).2.2.2 (by decide)

/-- Counterexample to C7 as stated: a tampered pull_request request is
rejected with 401, but state IS mutated before the signature check — the
delivery id is recorded in the replay cache (and the rate-limit counter
incremented), because validateWebhookSecurity runs before signature
verification. -/
theorem claim_C7_counterexample :
    (POST hmZero (some "sec") [] st0 reqTampered).status = 401 ∧
    (POST hmZero (some "sec") [] st0 reqTampered).state ≠ st0 := by
  constructor
  · decide
  · decide

/-- C7 (amended): a request whose signature fails to verify — in the
code's own sense: the sha256-prefixed header hex-decodes to a byte
string that differs from (or has a different length than) the decoded
HMAC digest — and which passes the security checks that run first, is
rejected with 401 and no deployment job is enqueued, so no database
table is touched; but the delivery id has already been added to the
replay cache and the per-IP rate-limit counter incremented before the
signature was checked. -/
theorem claim_C7 (hm : String → String → String) (sec : String)
    (projects : List Project) (st : SecurityState) (req : WebhookRequest)
    (hsize : ¬ req.body.length > 5242880)
    (hev : req.event = "pull_request" ∨ req.event = "ping")
    (hfresh : req.deliveryId ∉ st.deliveryCache)
    (hrate : rateCount st.rateLimit req.clientIp < 30)
    (hsig : verifyWebhookSignature hm req.body req.signature sec = false) :
    POST hm (some sec) projects st req
      = ⟨401,
         ⟨req.deliveryId :: st.deliveryCache,
          rateSet st.rateLimit req.clientIp
            (rateCount st.rateLimit req.clientIp + 1)⟩,
         false⟩ := by
  have hv := @validateWebhookSecurity_ok st req ⟨hsize, hev, hfresh, hrate⟩
  simp [POST, hv, hsig]

/-- Witness for C7 at a concrete input: the tampered fixture request. -/
theorem claim_C7_witness :
    POST hmZero (some "sec") [] st0 reqTampered
      = ⟨401, ⟨["d1"], [("ip", 1)]⟩, false⟩ := by
  have h := claim_C7 hmZero "sec" [] st0 reqTampered (by decide)
    (Or.inl (by decide)) (by decide) (by decide) (by decide)
  rw [h]
  decide

/-- C8: the claim is right and the code is wrong — when the git clone
step of a deployment fails, handleDeploymentError stores the raw exec
error message, which carries the clone command line and therefore the
installation access token; changing the token changes the stored
message, and the token occurs verbatim inside it. -/
theorem claim_C8 :
    (deployCloneFailure [exReady] 1 "s3cr3tTok" "o/r" "/tmp/d" 5000).map
        (fun r => r.errorMessage)
      = [some (cloneFailureMessage "s3cr3tTok" "o/r" "/tmp/d")] ∧
    cloneFailureMessage "s3cr3tTok" "o/r" "/tmp/d"
      ≠ cloneFailureMessage "0therTok" "o/r" "/tmp/d" ∧
    containsSeg ("s3cr3tTok".toList)
      ((cloneFailureMessage "s3cr3tTok" "o/r" "/tmp/d").toList) = true := by
  refine ⟨by decide, by decide, by decide⟩

/-- Counterexample to C9 as stated: a small, well-formed, non-replayed
request whose event type is push — an event the spec classifies as
ignored-with-success — is answered 400 (INVALID_EVENT from
validateWebhookSecurity), not 200. -/
theorem claim_C9_counterexample :
    (POST hmZero (some "sec") [] st0 reqPush).status = 400 ∧
    reqPush.body.length ≤ 5242880 ∧
    reqPush.parsedBody.map validateWebhookPayload = some true := by
  refine ⟨by decide, by decide, by decide⟩

/-- C9 (amended): the endpoint responds 500 when the secret is
unconfigured; 400 for an oversized payload, a disallowed event type
(anything other than pull_request or ping), a duplicate delivery id, or
an invalid payload structure; 429 when rate-limited; 401 for an invalid
signature; 500 for a pull_request body that fails JSON parsing; and 200
on ping, ignored PR actions, missing active project, and accepted
events.  Signature validity is the code's hex-decode plus
timingSafeEqual comparison, which also accepts uppercase-hex and
trailing-garbage renderings of the correct digest. -/
theorem claim_C9 (hm : String → String → String) (secret : Option String)
    (projects : List Project) (st : SecurityState) (req : WebhookRequest) :
    (secret = none → (POST hm secret projects st req).status = 500) ∧
    (∀ sec, secret = some sec →
      (req.body.length > 5242880 →
        (POST hm secret projects st req).status = 400) ∧
      (¬ req.body.length > 5242880 →
        ¬(req.event = "pull_request" ∨ req.event = "ping") →
        (POST hm secret projects st req).status = 400) ∧
      (¬ req.body.length > 5242880 →
        (req.event = "pull_request" ∨ req.event = "ping") →
        req.deliveryId ∈ st.deliveryCache →
        (POST hm secret projects st req).status = 400) ∧
      (¬ req.body.length > 5242880 →
        (req.event = "pull_request" ∨ req.event = "ping") →
        req.deliveryId ∉ st.deliveryCache →
        rateCount st.rateLimit req.clientIp ≥ 30 →
        (POST hm secret projects st req).status = 429) ∧
      (securityOk st req →
        verifyWebhookSignature hm req.body req.signature sec = false →
        (POST hm secret projects st req).status = 401 ∧
        (POST hm secret projects st req).queued = false) ∧
      (securityOk st req →
        verifyWebhookSignature hm req.body req.signature sec = true →
        req.event = "ping" →
        (POST hm secret projects st req).status = 200) ∧
      (securityOk st req →
        verifyWebhookSignature hm req.body req.signature sec = true →
        req.event = "pull_request" →
        req.parsedBody = none →
        (POST hm secret projects st req).status = 500) ∧
      (securityOk st req →
        verifyWebhookSignature hm req.body req.signature sec = true →
        req.event = "pull_request" →
        ∀ raw, req.parsedBody = some raw →
          (validateWebhookPayload (sanitizePayload raw) = false →
            (POST hm secret projects st req).status = 400) ∧
          (validateWebhookPayload (sanitizePayload raw) = true →
            (POST hm secret projects st req).status = 200))) := by
  constructor
  · intro h
    subst h
    rfl
  · intro sec hsec
    subst hsec
    refine ⟨?_, ?_, ?_, ?_, ?_, ?_, ?_, ?_⟩
    · intro hsize
      simp [POST, validateWebhookSecurity, hsize]
    · intro hsize hev
      simp [POST, validateWebhookSecurity, hsize, hev]
    · intro hsize hev hdup
      rcases hev with h | h <;>
        simp [POST, validateWebhookSecurity, hsize, h, hdup]
    · intro hsize hev hfresh hrate
      rcases hev with h | h <;>
        simp [POST, validateWebhookSecurity, hsize, h, hfresh, hrate]
    · intro hok hsig
      have hv := validateWebhookSecurity_ok hok
      simp [POST, hv, hsig]
    · intro hok hsig hping
      have hv := validateWebhookSecurity_ok hok
      rw [hping] at hv
      simp [POST, hv, hsig, hping]
    · intro hok hsig hpr hnone
      have hv := validateWebhookSecurity_ok hok
      rw [hpr] at hv
      simp [POST, hv, hsig, hpr, hnone]
    · intro hok hsig hpr raw hraw
      have hv := validateWebhookSecurity_ok hok
      rw [hpr] at hv
      constructor
      · intro hbad
        simp [POST, hv, hsig, hpr, hraw, hbad]
      · intro hgood
        by_cases hmem : (sanitizePayload raw).action ∈ supportedPRActions
        · cases hfind : projects.find? (fun pc =>
              pc.repoFullName == (sanitizePayload raw).repoFullName && pc.isActive) with
          | none => simp [POST, hv, hsig, hpr, hraw, hgood, hmem, hfind]
          | some pc => simp [POST, hv, hsig, hpr, hraw, hgood, hmem, hfind]
        · simp [POST, hv, hsig, hpr, hraw, hgood, hmem]

/-- Witness for C9 at a concrete input: a correctly signed, well-formed
pull_request opened event with an active project is accepted with
200. -/
theorem claim_C9_witness :
    (POST hmZero (some "sec") [exProj] st0 reqOk).status = 200 :=
  (((claim_C9 hmZero (some "sec") [exProj] st0 reqOk).2 "sec" rfl).2.2.2.2.2.2.2
    (by refine ⟨by decide, Or.inl (by decide), by decide, by decide⟩)
    (by decide) (by decide) exPayload (by decide)).2 (by decide)

/-- C10: sanitizeWebhookPayload is idempotent, and every string value in
its output contains no angle brackets and no leading or trailing
whitespace. -/
theorem claim_C10 (payload : Json) :
    sanitizeWebhookPayload (sanitizeWebhookPayload payload)
        = sanitizeWebhookPayload payload ∧
      JsonClean (sanitizeWebhookPayload payload) :=
  ⟨sanitizeJson_idem payload, sanitizeJson_clean payload⟩

end ClaimTheorems

end ReviewApps
